import Mathlib

/-!
Shallow embedding of the standardization-and-correlation core of the
multi-messenger event correlator (`app.py`).

The source keeps events as dictionaries with keys `id`, `source`, `time`,
and (after standardization) `coords`.  We model a canonical event as a
record whose `time` is the absolute instant in seconds (astropy `Time`
differences expose `.sec`) and whose sky position is the ICRS
(right ascension, declination) pair in degrees.  Astropy's
`SkyCoord.separation(...).degree` is the great-circle angle, embedded here
as the spherical law of cosines over exact reals.  Raw events carry
rational numeric fields (the JSON-borne numbers of the feeds);
standardization casts them into the real-valued canonical form, wrapping
right ascension the way astropy's `Longitude` does and rejecting
declinations outside [-90, 90] the way astropy's `Latitude` does
(a `ValueError`, surfaced here as `MalformedRecordError`).
-/

/-- `TIME_WINDOW_SECONDS = 600` — module-level configuration constant of `app.py`. -/
def TIME_WINDOW_SECONDS : ℝ := 600

/-- `SEPARATION_THRESHOLD_DEG = 5.0` — module-level configuration constant of `app.py`. -/
def SEPARATION_THRESHOLD_DEG : ℝ := 5

/-- Degrees to radians, as astropy does internally for angle arithmetic. -/
noncomputable def deg2rad (x : ℝ) : ℝ := x * (Real.pi / 180)

/-- `coords1.separation(coords2).degree` of astropy: the great-circle angular
separation, in degrees, between the points (ra1, dec1) and (ra2, dec2) given
in degrees — the spherical law of cosines. -/
noncomputable def separation_deg (ra1 dec1 ra2 dec2 : ℝ) : ℝ :=
  Real.arccos (Real.sin (deg2rad dec1) * Real.sin (deg2rad dec2) +
      Real.cos (deg2rad dec1) * Real.cos (deg2rad dec2) *
        Real.cos (deg2rad ra1 - deg2rad ra2)) * (180 / Real.pi)

/-- A standardized event: the dictionary built by `standardize_data`
(`id`, `source`, `time` as an absolute instant in seconds, and the
`coords` pair in degrees). -/
structure CanonicalEvent where
  id : String
  source : String
  time : ℝ
  ra : ℝ
  dec : ℝ

/- Inner loop of `correlate_events`: `event1` against `standardized_events[i+1:]`,
with the two module constants passed explicitly (they are process-wide globals
in the source).  Same-source pairs are skipped (`continue`); otherwise the pair
is reported when `abs(event1['time'] - event2['time']).sec < tw` and
`event1['coords'].separation(event2['coords']).degree < sd`, both strict. -/
open Classical in
noncomputable def correlateInner (tw sd : ℝ) (event1 : CanonicalEvent) :
    List CanonicalEvent → List (String × String)
  | [] => []
  | event2 :: rest =>
    if event1.source = event2.source then
      correlateInner tw sd event1 rest
    else if |event1.time - event2.time| < tw then
      if separation_deg event1.ra event1.dec event2.ra event2.dec < sd then
        (event1.id, event2.id) :: correlateInner tw sd event1 rest
      else
        correlateInner tw sd event1 rest
    else
      correlateInner tw sd event1 rest

/-- Outer loop of `correlate_events`, thresholds passed explicitly: for each
index `i`, the inner loop runs over the tail `standardized_events[i+1:]`. -/
noncomputable def correlate_with (tw sd : ℝ) :
    List CanonicalEvent → List (String × String)
  | [] => []
  | event1 :: rest => correlateInner tw sd event1 rest ++ correlate_with tw sd rest

/-- `correlate_events` of `app.py`: the nested pairwise scan, reading the two
module configuration constants. -/
noncomputable def correlate_events (standardized_events : List CanonicalEvent) :
    List (String × String) :=
  correlate_with TIME_WINDOW_SECONDS SEPARATION_THRESHOLD_DEG standardized_events

/-- A raw feed record, before standardization: the dictionaries built by
`fetch_ztf_data` / `fetch_gw_data` / `generate_fallback_mock_data`, with the
numeric fields as the exact numbers carried by the feed (`time` as the
absolute instant in seconds, `ra`, `dec` in degrees). -/
structure RawEvent where
  id : String
  source : String
  time : ℚ
  ra : ℚ
  dec : ℚ
deriving DecidableEq

/-- The failure raised during standardization.  In the source it is the
`ValueError` astropy's `Latitude` raises when `SkyCoord` is given a
declination outside [-90, 90] degrees; the specification names this
failure class `MalformedRecordError`. -/
inductive MalformedRecordError where
  | declinationOutOfRange (id : String) (dec : ℚ)
deriving DecidableEq

/-- Astropy `Longitude` (wrap angle 360°): right ascension is reduced
modulo 360 into [0, 360). -/
def raWrap (ra : ℚ) : ℚ := ra - 360 * (⌊ra / 360⌋ : ℚ)

/-- `standardize_data` of `app.py`: one canonical record per raw record, in
order.  Building `SkyCoord` validates the declination (astropy `Latitude`
raises outside [-90, 90]); the exception propagates out of the loop, so the
first bad record makes the whole call fail and no list is returned. -/
def standardize_data : List RawEvent → Except MalformedRecordError (List CanonicalEvent)
  | [] => .ok []
  | event :: rest =>
    if event.dec < -90 ∨ 90 < event.dec then
      .error (.declinationOutOfRange event.id event.dec)
    else
      match standardize_data rest with
      | .error e => .error e
      | .ok tail =>
        .ok ({ id := event.id, source := event.source, time := (event.time : ℝ),
               ra := ((raWrap event.ra : ℚ) : ℝ), dec := (event.dec : ℝ) } :: tail)

/- Instrumented inner loop: identical branching to `correlateInner`, but it
also returns the sequence of event records it traversed, rebuilt step by step,
so that the frame property "the loop only reads its input" is a provable
statement rather than a convention of the embedding. -/
open Classical in
noncomputable def correlateInnerSt (tw sd : ℝ) (event1 : CanonicalEvent) :
    List CanonicalEvent → List CanonicalEvent × List (String × String)
  | [] => ([], [])
  | event2 :: rest =>
    if event1.source = event2.source then
      ((correlateInnerSt tw sd event1 rest).1.cons event2,
        (correlateInnerSt tw sd event1 rest).2)
    else if |event1.time - event2.time| < tw then
      if separation_deg event1.ra event1.dec event2.ra event2.dec < sd then
        ((correlateInnerSt tw sd event1 rest).1.cons event2,
          ((correlateInnerSt tw sd event1 rest).2).cons (event1.id, event2.id))
      else
        ((correlateInnerSt tw sd event1 rest).1.cons event2,
          (correlateInnerSt tw sd event1 rest).2)
    else
      ((correlateInnerSt tw sd event1 rest).1.cons event2,
        (correlateInnerSt tw sd event1 rest).2)

/- Instrumented outer loop: the state produced by the inner loop is the state
the rest of the outer loop runs on (proper state threading); the final state
is returned alongside the reported pairs. -/
open Classical in
noncomputable def correlateSt (tw sd : ℝ) :
    List CanonicalEvent → List CanonicalEvent × List (String × String)
  | [] => ([], [])
  | event1 :: rest =>
    ((correlateSt tw sd (correlateInnerSt tw sd event1 rest).1).1.cons event1,
      (correlateInnerSt tw sd event1 rest).2 ++
        (correlateSt tw sd (correlateInnerSt tw sd event1 rest).1).2)
termination_by events => events.length
decreasing_by
  all_goals
    simp only [List.length_cons]
    have h : ∀ (a b : ℝ) (e : CanonicalEvent) (l : List CanonicalEvent),
        (correlateInnerSt a b e l).1.length = l.length := by
      intro a b e l
      induction l with
      | nil => simp [correlateInnerSt]
      | cons a t ih =>
        simp only [correlateInnerSt]
        split
        · simpa using ih
        · split
          · split
            · simpa using ih
            · simpa using ih
          · simpa using ih
    rw [h]
    omega

/-- A sample optical transient, shaped like the concrete scenario of the
specification (source ZTF, instant 0 s, ra 10°, dec 0°). -/
def evZTF : CanonicalEvent := ⟨"ZTF1", "ZTF", 0, 10, 0⟩

/-- A sample gravitational-wave candidate 100 s after `evZTF` at the same
sky position. -/
def evGW : CanonicalEvent := ⟨"GW1", "GWOSC", 100, 10, 0⟩

/-- A sample gravitational-wave candidate exactly `TIME_WINDOW_SECONDS`
after `evZTF` at the same sky position. -/
def evGW600 : CanonicalEvent := ⟨"GW6", "GWOSC", 600, 10, 0⟩

/-- A well-formed raw record. -/
def rawGood : RawEvent := ⟨"g1", "ZTF", 0, 10, 0⟩

/-- Another well-formed raw record, from the other stream. -/
def rawGood2 : RawEvent := ⟨"g2", "GWOSC", 50, 20, 10⟩

/-- A malformed raw record: declination 95° is outside [-90, 90]. -/
def rawBad : RawEvent := ⟨"m1", "GWOSC", 0, 10, 95⟩

theorem separation_deg_symm (ra1 dec1 ra2 dec2 : ℝ) :
    separation_deg ra1 dec1 ra2 dec2 = separation_deg ra2 dec2 ra1 dec1 := by
  unfold separation_deg
  rw [show deg2rad ra2 - deg2rad ra1 = -(deg2rad ra1 - deg2rad ra2) by ring, Real.cos_neg]
  ring_nf

theorem separation_deg_self (ra dec : ℝ) : separation_deg ra dec ra dec = 0 := by
  unfold separation_deg
  rw [sub_self, Real.cos_zero]
  have h : Real.sin (deg2rad dec) * Real.sin (deg2rad dec) +
      Real.cos (deg2rad dec) * Real.cos (deg2rad dec) * 1 = 1 := by
    nlinarith [Real.sin_sq_add_cos_sq (deg2rad dec)]
  rw [h, Real.arccos_one, zero_mul]

theorem separation_deg_nonneg (ra1 dec1 ra2 dec2 : ℝ) :
    0 ≤ separation_deg ra1 dec1 ra2 dec2 := by
  unfold separation_deg
  have h1 := Real.arccos_nonneg (Real.sin (deg2rad dec1) * Real.sin (deg2rad dec2) +
    Real.cos (deg2rad dec1) * Real.cos (deg2rad dec2) *
      Real.cos (deg2rad ra1 - deg2rad ra2))
  have h2 : (0:ℝ) ≤ 180 / Real.pi := by positivity
  exact mul_nonneg h1 h2

theorem arccos_anti {x y : ℝ} (h : x ≤ y) : Real.arccos y ≤ Real.arccos x := by
  rw [Real.arccos_eq_pi_div_two_sub_arcsin, Real.arccos_eq_pi_div_two_sub_arcsin]
  have := Real.monotone_arcsin h
  linarith

theorem mem_correlateInner {tw sd : ℝ} {event1 : CanonicalEvent}
    {l : List CanonicalEvent} {a b : String} :
    (a, b) ∈ correlateInner tw sd event1 l ↔
      ∃ event2 ∈ l, a = event1.id ∧ b = event2.id ∧
        event1.source ≠ event2.source ∧ |event1.time - event2.time| < tw ∧
        separation_deg event1.ra event1.dec event2.ra event2.dec < sd := by
  induction l with
  | nil => simp [correlateInner]
  | cons e t ih =>
    simp only [correlateInner]
    by_cases hs : event1.source = e.source
    · rw [if_pos hs, ih]
      constructor
      · rintro ⟨e2, he2, h⟩
        exact ⟨e2, List.mem_cons_of_mem _ he2, h⟩
      · rintro ⟨e2, he2, h1, h2, h3, h4, h5⟩
        rcases List.mem_cons.mp he2 with rfl | he2
        · exact absurd hs h3
        · exact ⟨e2, he2, h1, h2, h3, h4, h5⟩
    · rw [if_neg hs]
      by_cases ht : |event1.time - e.time| < tw
      · rw [if_pos ht]
        by_cases hsep : separation_deg event1.ra event1.dec e.ra e.dec < sd
        · rw [if_pos hsep]
          constructor
          · intro h
            rcases List.mem_cons.mp h with h | h
            · simp only [Prod.mk.injEq] at h
              exact ⟨e, List.mem_cons_self e t, h.1, h.2, hs, ht, hsep⟩
            · obtain ⟨e2, he2, hrest⟩ := ih.mp h
              exact ⟨e2, List.mem_cons_of_mem _ he2, hrest⟩
          · rintro ⟨e2, he2, h1, h2, h3, h4, h5⟩
            rcases List.mem_cons.mp he2 with rfl | he2
            · exact List.mem_cons.mpr (Or.inl (by rw [h1, h2]))
            · exact List.mem_cons_of_mem _ (ih.mpr ⟨e2, he2, h1, h2, h3, h4, h5⟩)
        · rw [if_neg hsep, ih]
          constructor
          · rintro ⟨e2, he2, h⟩
            exact ⟨e2, List.mem_cons_of_mem _ he2, h⟩
          · rintro ⟨e2, he2, h1, h2, h3, h4, h5⟩
            rcases List.mem_cons.mp he2 with rfl | he2
            · exact absurd h5 hsep
            · exact ⟨e2, he2, h1, h2, h3, h4, h5⟩
      · rw [if_neg ht, ih]
        constructor
        · rintro ⟨e2, he2, h⟩
          exact ⟨e2, List.mem_cons_of_mem _ he2, h⟩
        · rintro ⟨e2, he2, h1, h2, h3, h4, h5⟩
          rcases List.mem_cons.mp he2 with rfl | he2
          · exact absurd h4 ht
          · exact ⟨e2, he2, h1, h2, h3, h4, h5⟩

theorem mem_correlate_with {tw sd : ℝ} {l : List CanonicalEvent} {a b : String}
    (h : (a, b) ∈ correlate_with tw sd l) :
    ∃ e1 ∈ l, ∃ e2 ∈ l, a = e1.id ∧ b = e2.id ∧
      e1.source ≠ e2.source ∧ |e1.time - e2.time| < tw ∧
      separation_deg e1.ra e1.dec e2.ra e2.dec < sd := by
  induction l with
  | nil => simp [correlate_with] at h
  | cons e t ih =>
    simp only [correlate_with, List.mem_append] at h
    rcases h with h | h
    · obtain ⟨e2, he2, h1, h2, h3, h4, h5⟩ := mem_correlateInner.mp h
      exact ⟨e, List.mem_cons_self e t, e2, List.mem_cons_of_mem _ he2, h1, h2, h3, h4, h5⟩
    · obtain ⟨e1, he1, e2, he2, hrest⟩ := ih h
      exact ⟨e1, List.mem_cons_of_mem _ he1, e2, List.mem_cons_of_mem _ he2, hrest⟩

theorem correlate_events_eq (evs : List CanonicalEvent) :
    correlate_events evs = correlate_with 600 5 evs := rfl

theorem correlate_with_pair {tw sd : ℝ} (e1 e2 : CanonicalEvent)
    (hs : ¬ e1.source = e2.source) (ht : |e1.time - e2.time| < tw)
    (hsep : separation_deg e1.ra e1.dec e2.ra e2.dec < sd) :
    correlate_with tw sd [e1, e2] = [(e1.id, e2.id)] := by
  simp only [correlate_with, correlateInner]
  rw [if_neg hs, if_pos ht, if_pos hsep]
  simp

/-- C4: correlation of an empty collection and of a singleton collection both
return the empty pair list, without error (the embedded function is total). -/
theorem correlate_empty_singleton :
    correlate_events [] = [] ∧ ∀ e : CanonicalEvent, correlate_events [e] = [] := by
  constructor
  · rw [correlate_events_eq]
    simp [correlate_with]
  · intro e
    rw [correlate_events_eq]
    simp [correlate_with, correlateInner]

/-- C1 (soundness): every pair `(a, b)` reported by `correlate_events` names
two events of the input collection that come from different sources, whose
instants differ by strictly less than 600 seconds, and whose great-circle
angular separation is strictly less than 5 degrees. -/
theorem correlate_soundness (evs : List CanonicalEvent) (a b : String)
    (h : (a, b) ∈ correlate_events evs) :
    ∃ e1 ∈ evs, ∃ e2 ∈ evs, a = e1.id ∧ b = e2.id ∧
      e1.source ≠ e2.source ∧ |e1.time - e2.time| < 600 ∧
      separation_deg e1.ra e1.dec e2.ra e2.dec < 5 := by
  rw [correlate_events_eq] at h
  exact mem_correlate_with h

/-- Witness for C1: on the concrete two-event batch `[evZTF, evGW]` the pair
`("ZTF1", "GW1")` is reported, and the soundness conclusion holds for it. -/
theorem correlate_soundness_witness :
    (("ZTF1", "GW1") ∈ correlate_events [evZTF, evGW]) ∧
      ∃ e1 ∈ [evZTF, evGW], ∃ e2 ∈ [evZTF, evGW], "ZTF1" = e1.id ∧ "GW1" = e2.id ∧
        e1.source ≠ e2.source ∧ |e1.time - e2.time| < 600 ∧
        separation_deg e1.ra e1.dec e2.ra e2.dec < 5 := by
  have hpair : correlate_events [evZTF, evGW] = [(evZTF.id, evGW.id)] := by
    rw [correlate_events_eq]
    apply correlate_with_pair
    · decide
    · show |evZTF.time - evGW.time| < 600
      simp only [evZTF, evGW]
      rw [abs_sub_lt_iff]
      norm_num
    · show separation_deg evZTF.ra evZTF.dec evGW.ra evGW.dec < 5
      simp only [evZTF, evGW]
      rw [separation_deg_self]
      norm_num
  have hmem : ("ZTF1", "GW1") ∈ correlate_events [evZTF, evGW] := by
    rw [hpair]
    simp [evZTF, evGW]
  exact ⟨hmem, correlate_soundness [evZTF, evGW] "ZTF1" "GW1" hmem⟩

theorem count_correlateInner_fst {tw sd : ℝ} {event1 : CanonicalEvent}
    {l : List CanonicalEvent} {a b : String} (ha : a ≠ event1.id) :
    (correlateInner tw sd event1 l).count (a, b) = 0 := by
  rw [List.count_eq_zero]
  intro h
  obtain ⟨e2, he2, h1, hrest⟩ := mem_correlateInner.mp h
  exact ha h1

theorem count_correlateInner_snd {tw sd : ℝ} {event1 : CanonicalEvent}
    {l : List CanonicalEvent} {a b : String} (hb : b ∉ l.map CanonicalEvent.id) :
    (correlateInner tw sd event1 l).count (a, b) = 0 := by
  rw [List.count_eq_zero]
  intro h
  obtain ⟨e2, he2, h1, h2, hrest⟩ := mem_correlateInner.mp h
  exact hb (h2 ▸ List.mem_map_of_mem CanonicalEvent.id he2)

theorem count_correlate_with_fst {tw sd : ℝ} {l : List CanonicalEvent}
    {a b : String} (ha : a ∉ l.map CanonicalEvent.id) :
    (correlate_with tw sd l).count (a, b) = 0 := by
  rw [List.count_eq_zero]
  intro h
  obtain ⟨e1, he1, e2, he2, h1, hrest⟩ := mem_correlate_with h
  exact ha (h1 ▸ List.mem_map_of_mem CanonicalEvent.id he1)

theorem count_correlate_with_snd {tw sd : ℝ} {l : List CanonicalEvent}
    {a b : String} (hb : b ∉ l.map CanonicalEvent.id) :
    (correlate_with tw sd l).count (a, b) = 0 := by
  rw [List.count_eq_zero]
  intro h
  obtain ⟨e1, he1, e2, he2, h1, h2, hrest⟩ := mem_correlate_with h
  exact hb (h2 ▸ List.mem_map_of_mem CanonicalEvent.id he2)

theorem count_correlateInner_eq_one {tw sd : ℝ} {event1 B : CanonicalEvent}
    {l : List CanonicalEvent} (hnd : (l.map CanonicalEvent.id).Nodup) (hB : B ∈ l)
    (h3 : event1.source ≠ B.source) (h4 : |event1.time - B.time| < tw)
    (h5 : separation_deg event1.ra event1.dec B.ra B.dec < sd) :
    (correlateInner tw sd event1 l).count (event1.id, B.id) = 1 := by
  induction l with
  | nil => cases hB
  | cons e t ih =>
    rw [List.map_cons, List.nodup_cons] at hnd
    rcases List.mem_cons.mp hB with rfl | hBt
    · simp only [correlateInner]
      rw [if_neg h3, if_pos h4, if_pos h5, List.count_cons_self,
        count_correlateInner_snd hnd.1]
    · have hne : (event1.id, B.id) ≠ (event1.id, e.id) := by
        intro hcontra
        simp only [Prod.mk.injEq] at hcontra
        exact hnd.1 (hcontra.2 ▸ List.mem_map_of_mem CanonicalEvent.id hBt)
      simp only [correlateInner]
      split
      · exact ih hnd.2 hBt
      · split
        · split
          · rw [List.count_cons_of_ne hne]
            exact ih hnd.2 hBt
          · exact ih hnd.2 hBt
        · exact ih hnd.2 hBt

theorem count_correlate_with_once {tw sd : ℝ} {A B : CanonicalEvent}
    {l : List CanonicalEvent} (hnd : (l.map CanonicalEvent.id).Nodup)
    (hA : A ∈ l) (hB : B ∈ l) (hAB : A.id ≠ B.id)
    (hs : A.source ≠ B.source) (ht : |A.time - B.time| < tw)
    (hsep : separation_deg A.ra A.dec B.ra B.dec < sd) :
    (correlate_with tw sd l).count (A.id, B.id) +
      (correlate_with tw sd l).count (B.id, A.id) = 1 := by
  induction l with
  | nil => cases hA
  | cons e t ih =>
    rw [List.map_cons, List.nodup_cons] at hnd
    simp only [correlate_with, List.count_append]
    rcases List.mem_cons.mp hA with hAe | hAt
    · have hBt : B ∈ t := by
        rcases List.mem_cons.mp hB with hBe | hBt
        · exact absurd (hAe.trans hBe.symm ▸ rfl) hAB
        · exact hBt
      subst hAe
      rw [count_correlateInner_eq_one hnd.2 hBt hs ht hsep,
        count_correlateInner_fst (Ne.symm hAB),
        count_correlate_with_fst hnd.1, count_correlate_with_snd hnd.1]
    · rcases List.mem_cons.mp hB with hBe | hBt
      · subst hBe
        have ht' : |B.time - A.time| < tw := by
          rw [abs_sub_comm] at ht
          exact ht
        have hsep' : separation_deg B.ra B.dec A.ra A.dec < sd := by
          rw [separation_deg_symm] at hsep
          exact hsep
        rw [count_correlateInner_eq_one hnd.2 hAt (Ne.symm hs) ht' hsep',
          count_correlateInner_fst hAB,
          count_correlate_with_fst hnd.1, count_correlate_with_snd hnd.1]
      · have hAe : A.id ≠ e.id := by
          intro hcontra
          exact hnd.1 (hcontra ▸ List.mem_map_of_mem CanonicalEvent.id hAt)
        have hBe : B.id ≠ e.id := by
          intro hcontra
          exact hnd.1 (hcontra ▸ List.mem_map_of_mem CanonicalEvent.id hBt)
        rw [count_correlateInner_fst hAe, count_correlateInner_fst hBe]
        have := ih hnd.2 hAt hBt
        omega

/-- C2 (completeness without duplication): in a batch whose identifiers are
unique (the data-model invariant), every unordered pair of distinct events
satisfying the three match conditions is reported exactly once — as `(A, B)`
or as `(B, A)`, never both. -/
theorem correlate_complete_once (evs : List CanonicalEvent) (A B : CanonicalEvent)
    (hnd : (evs.map CanonicalEvent.id).Nodup)
    (hA : A ∈ evs) (hB : B ∈ evs) (hAB : A.id ≠ B.id)
    (hs : A.source ≠ B.source) (ht : |A.time - B.time| < 600)
    (hsep : separation_deg A.ra A.dec B.ra B.dec < 5) :
    (correlate_events evs).count (A.id, B.id) +
      (correlate_events evs).count (B.id, A.id) = 1 := by
  rw [correlate_events_eq]
  exact count_correlate_with_once hnd hA hB hAB hs ht hsep

/-- Witness for C2 at the concrete batch `[evZTF, evGW]`. -/
theorem correlate_complete_once_witness :
    ((List.map CanonicalEvent.id [evZTF, evGW]).Nodup ∧
      evZTF ∈ [evZTF, evGW] ∧ evGW ∈ [evZTF, evGW] ∧ evZTF.id ≠ evGW.id ∧
      evZTF.source ≠ evGW.source ∧ |evZTF.time - evGW.time| < 600 ∧
      separation_deg evZTF.ra evZTF.dec evGW.ra evGW.dec < 5) ∧
    (correlate_events [evZTF, evGW]).count (evZTF.id, evGW.id) +
      (correlate_events [evZTF, evGW]).count (evGW.id, evZTF.id) = 1 := by
  have hnd : (List.map CanonicalEvent.id [evZTF, evGW]).Nodup := by decide
  have hA : evZTF ∈ [evZTF, evGW] := List.mem_cons_self _ _
  have hB : evGW ∈ [evZTF, evGW] := List.mem_cons_of_mem _ (List.mem_cons_self _ _)
  have ht : |evZTF.time - evGW.time| < 600 := by
    simp only [evZTF, evGW]
    rw [abs_sub_lt_iff]
    norm_num
  have hsep : separation_deg evZTF.ra evZTF.dec evGW.ra evGW.dec < 5 := by
    simp only [evZTF, evGW]
    rw [separation_deg_self]
    norm_num
  refine ⟨⟨hnd, hA, hB, by decide, by decide, ht, hsep⟩, ?_⟩
  exact correlate_complete_once [evZTF, evGW] evZTF evGW hnd hA hB
    (by decide) (by decide) ht hsep

/-- C3 (strict thresholds): in a batch with unique identifiers, a cross-source
pair whose time difference is exactly 600 seconds, or whose angular separation
is exactly 5 degrees, is not reported in either orientation (both comparisons
in the source are strict less-than). -/
theorem correlate_strict_thresholds (evs : List CanonicalEvent)
    (A B : CanonicalEvent) (hnd : (evs.map CanonicalEvent.id).Nodup)
    (hA : A ∈ evs) (hB : B ∈ evs) (hs : A.source ≠ B.source)
    (hth : |A.time - B.time| = 600 ∨ separation_deg A.ra A.dec B.ra B.dec = 5) :
    (A.id, B.id) ∉ correlate_events evs ∧ (B.id, A.id) ∉ correlate_events evs := by
  have hinj := List.inj_on_of_nodup_map hnd
  constructor
  · intro hmem
    rw [correlate_events_eq] at hmem
    obtain ⟨e1, he1, e2, he2, h1, h2, h3, h4, h5⟩ := mem_correlate_with hmem
    have he1A : e1 = A := hinj he1 hA h1.symm
    have he2B : e2 = B := hinj he2 hB h2.symm
    subst he1A
    subst he2B
    rcases hth with hth | hth
    · rw [hth] at h4
      exact absurd h4 (lt_irrefl _)
    · rw [hth] at h5
      exact absurd h5 (lt_irrefl _)
  · intro hmem
    rw [correlate_events_eq] at hmem
    obtain ⟨e1, he1, e2, he2, h1, h2, h3, h4, h5⟩ := mem_correlate_with hmem
    have he1B : e1 = B := hinj he1 hB h1.symm
    have he2A : e2 = A := hinj he2 hA h2.symm
    subst he1B
    subst he2A
    rcases hth with hth | hth
    · rw [abs_sub_comm, hth] at h4
      exact absurd h4 (lt_irrefl _)
    · rw [separation_deg_symm, hth] at h5
      exact absurd h5 (lt_irrefl _)

/-- Witness for C3: `evGW600` lies exactly 600 seconds from `evZTF`, and the
pair is not reported in either orientation. -/
theorem correlate_strict_thresholds_witness :
    ((List.map CanonicalEvent.id [evZTF, evGW600]).Nodup ∧
      evZTF ∈ [evZTF, evGW600] ∧ evGW600 ∈ [evZTF, evGW600] ∧
      evZTF.source ≠ evGW600.source ∧
      (|evZTF.time - evGW600.time| = 600 ∨
        separation_deg evZTF.ra evZTF.dec evGW600.ra evGW600.dec = 5)) ∧
    (evZTF.id, evGW600.id) ∉ correlate_events [evZTF, evGW600] ∧
      (evGW600.id, evZTF.id) ∉ correlate_events [evZTF, evGW600] := by
  have hnd : (List.map CanonicalEvent.id [evZTF, evGW600]).Nodup := by decide
  have hA : evZTF ∈ [evZTF, evGW600] := List.mem_cons_self _ _
  have hB : evGW600 ∈ [evZTF, evGW600] := List.mem_cons_of_mem _ (List.mem_cons_self _ _)
  have hth : |evZTF.time - evGW600.time| = 600 ∨
      separation_deg evZTF.ra evZTF.dec evGW600.ra evGW600.dec = 5 := by
    left
    simp only [evZTF, evGW600]
    rw [show (0:ℝ) - 600 = -600 by norm_num, abs_neg, abs_of_nonneg (by norm_num : (0:ℝ) ≤ 600)]
  refine ⟨⟨hnd, hA, hB, by decide, hth⟩, ?_⟩
  exact correlate_strict_thresholds [evZTF, evGW600] evZTF evGW600 hnd hA hB (by decide) hth

theorem standardize_error_of_malformed (raws : List RawEvent) (e : RawEvent)
    (he : e ∈ raws) (hmal : e.dec < -90 ∨ 90 < e.dec) :
    ∃ err, standardize_data raws = Except.error err := by
  induction raws with
  | nil => cases he
  | cons a t ih =>
    rcases List.mem_cons.mp he with rfl | he'
    · refine ⟨.declinationOutOfRange e.id e.dec, ?_⟩
      simp only [standardize_data]
      rw [if_pos hmal]
    · by_cases hc : a.dec < -90 ∨ 90 < a.dec
      · refine ⟨.declinationOutOfRange a.id a.dec, ?_⟩
        simp only [standardize_data]
        rw [if_pos hc]
      · obtain ⟨err, herr⟩ := ih he'
        refine ⟨err, ?_⟩
        simp only [standardize_data]
        rw [if_neg hc, herr]

/-- C5 (out-of-range rejection): a raw record with declination 95 makes
`standardize_data` fail with a `MalformedRecordError`, so no canonical-event
collection is produced and the record never reaches `correlate_events`. -/
theorem standardize_dec95_fails (raws : List RawEvent) (e : RawEvent)
    (he : e ∈ raws) (hdec : e.dec = 95) :
    (∃ err, standardize_data raws = Except.error err) ∧
      ∀ out, standardize_data raws ≠ Except.ok out := by
  have h := standardize_error_of_malformed raws e he (Or.inr (by rw [hdec]; norm_num))
  refine ⟨h, ?_⟩
  intro out hout
  obtain ⟨err, herr⟩ := h
  rw [herr] at hout
  cases hout

/-- Witness for C5 at the concrete batch `[rawGood, rawBad]`. -/
theorem standardize_dec95_fails_witness :
    (rawBad ∈ [rawGood, rawBad] ∧ rawBad.dec = 95) ∧
      (∃ err, standardize_data [rawGood, rawBad] = Except.error err) ∧
      ∀ out, standardize_data [rawGood, rawBad] ≠ Except.ok out := by
  have h := standardize_dec95_fails [rawGood, rawBad] rawBad (by decide) rfl
  exact ⟨⟨by decide, rfl⟩, h.1, h.2⟩

/-- C6 counterexample: a batch holding the well-formed `rawGood` ahead of the
malformed `rawBad` is aborted wholesale — `standardize_data` returns the
malformed record's error and delivers no canonical events at all, so the
failure is not isolated to the offending record. -/
theorem standardize_abort_batch_cex :
    standardize_data [rawGood, rawBad] =
      Except.error (MalformedRecordError.declinationOutOfRange "m1" 95) := by
  rfl

/-- C6 corrected (amended): a single malformed record aborts the whole batch —
`standardize_data` fails for the entire input, returning no canonical events
for any record, the well-formed ones included. -/
theorem standardize_malformed_aborts_batch (raws : List RawEvent) (e : RawEvent)
    (he : e ∈ raws) (hmal : e.dec < -90 ∨ 90 < e.dec) :
    (∃ err, standardize_data raws = Except.error err) ∧
      ∀ out, standardize_data raws ≠ Except.ok out := by
  have h := standardize_error_of_malformed raws e he hmal
  refine ⟨h, ?_⟩
  intro out hout
  obtain ⟨err, herr⟩ := h
  rw [herr] at hout
  cases hout

/-- Witness for the amended C6 at the concrete batch `[rawGood, rawBad, rawGood2]`. -/
theorem standardize_malformed_aborts_batch_witness :
    (rawBad ∈ [rawGood, rawBad, rawGood2] ∧ (rawBad.dec < -90 ∨ 90 < rawBad.dec)) ∧
      (∃ err, standardize_data [rawGood, rawBad, rawGood2] = Except.error err) ∧
      ∀ out, standardize_data [rawGood, rawBad, rawGood2] ≠ Except.ok out := by
  have h := standardize_malformed_aborts_batch [rawGood, rawBad, rawGood2] rawBad
    (by decide) (by decide)
  exact ⟨⟨by decide, by decide⟩, h.1, h.2⟩

theorem correlateInner_eq_nil_of_nonpos {tw sd : ℝ} (hp : tw ≤ 0 ∨ sd ≤ 0)
    (event1 : CanonicalEvent) (l : List CanonicalEvent) :
    correlateInner tw sd event1 l = [] := by
  induction l with
  | nil => simp [correlateInner]
  | cons e t ih =>
    simp only [correlateInner]
    by_cases hsrc : event1.source = e.source
    · rw [if_pos hsrc]
      exact ih
    · rw [if_neg hsrc]
      rcases hp with hp | hp
      · have hnt : ¬ |event1.time - e.time| < tw := not_lt.mpr (hp.trans (abs_nonneg _))
        rw [if_neg hnt]
        exact ih
      · have hns : ¬ separation_deg event1.ra event1.dec e.ra e.dec < sd :=
          not_lt.mpr (hp.trans (separation_deg_nonneg _ _ _ _))
        by_cases hnt : |event1.time - e.time| < tw
        · rw [if_pos hnt, if_neg hns]
          exact ih
        · rw [if_neg hnt]
          exact ih

theorem correlate_with_eq_nil_of_nonpos {tw sd : ℝ} (hp : tw ≤ 0 ∨ sd ≤ 0) :
    ∀ l, correlate_with tw sd l = [] := by
  intro l
  induction l with
  | nil => simp [correlate_with]
  | cons e t ih =>
    simp only [correlate_with]
    rw [correlateInner_eq_nil_of_nonpos hp, ih]
    rfl

/-- C7 counterexample: a correlation run configured with the non-positive time
window -600 completes normally and yields a result (the empty pair list) — 
no `InvalidPolicyError` exists in the code and nothing is raised eagerly. -/
theorem correlate_invalid_policy_cex :
    correlate_with (-600) 5 [evZTF, evGW] = [] :=
  correlate_with_eq_nil_of_nonpos (Or.inl (by norm_num)) _

/-- C7 corrected (amended): the code validates nothing — the thresholds are
fixed module constants and `correlate_events` has no error path.  A run whose
time window or separation threshold is non-positive raises no error; it simply
reports no pairs, both tests being strict comparisons against non-negative
quantities. -/
theorem correlate_nonpositive_policy_no_error (tw sd : ℝ) (l : List CanonicalEvent)
    (hp : tw ≤ 0 ∨ sd ≤ 0) :
    correlate_with tw sd l = [] :=
  correlate_with_eq_nil_of_nonpos hp l

/-- Witness for the amended C7 at a concrete non-positive window. -/
theorem correlate_nonpositive_policy_no_error_witness :
    ((-600 : ℝ) ≤ 0 ∨ (5 : ℝ) ≤ 0) ∧
      correlate_with (-600) 5 [evZTF, evGW600] = [] :=
  ⟨Or.inl (by norm_num),
    correlate_nonpositive_policy_no_error (-600) 5 [evZTF, evGW600] (Or.inl (by norm_num))⟩

theorem separation_deg_ra_wrap_le_two (d : ℝ) : separation_deg 1 d 359 d ≤ 2 := by
  unfold separation_deg
  set δ := deg2rad d with hδ
  have hdiff : deg2rad 1 - deg2rad 359 = -(358 * (Real.pi / 180)) := by
    unfold deg2rad
    ring
  rw [hdiff, Real.cos_neg]
  have h358 : (358 : ℝ) * (Real.pi / 180) = 2 * Real.pi - 2 * (Real.pi / 180) := by
    ring
  rw [h358, Real.cos_two_pi_sub]
  have hc1 : Real.cos (2 * (Real.pi / 180)) ≤ 1 := Real.cos_le_one _
  have hval_ge : Real.cos (2 * (Real.pi / 180)) ≤
      Real.sin δ * Real.sin δ + Real.cos δ * Real.cos δ * Real.cos (2 * (Real.pi / 180)) := by
    nlinarith [Real.sin_sq_add_cos_sq δ]
  have harc := arccos_anti hval_ge
  have hcc : Real.arccos (Real.cos (2 * (Real.pi / 180))) = 2 * (Real.pi / 180) :=
    Real.arccos_cos (by positivity) (by linarith [Real.pi_pos])
  have hstep : Real.arccos (Real.sin δ * Real.sin δ +
      Real.cos δ * Real.cos δ * Real.cos (2 * (Real.pi / 180))) * (180 / Real.pi) ≤
      (2 * (Real.pi / 180)) * (180 / Real.pi) :=
    mul_le_mul_of_nonneg_right (harc.trans hcc.le) (by positivity)
  have hfin : (2 * (Real.pi / 180)) * (180 / Real.pi) = 2 := by
    field_simp
  linarith

/-- C8 (right-ascension wrap): two positions at RA 1° and RA 359° with the
same declination are separated by at most 2 great-circle degrees (not ~358°),
and two such events from different sources with equal instants are reported
as a match under the default thresholds. -/
theorem correlate_ra_wrap (d t : ℝ) :
    separation_deg 1 d 359 d ≤ 2 ∧
      correlate_events
          [{ id := "ZTF1", source := "ZTF", time := t, ra := 1, dec := d },
           { id := "GW1", source := "GWOSC", time := t, ra := 359, dec := d }] =
        [("ZTF1", "GW1")] := by
  refine ⟨separation_deg_ra_wrap_le_two d, ?_⟩
  rw [correlate_events_eq]
  apply correlate_with_pair
  · show ¬ ("ZTF" : String) = "GWOSC"
    decide
  · show |t - t| < 600
    rw [sub_self, abs_zero]
    norm_num
  · show separation_deg 1 d 359 d < 5
    exact lt_of_le_of_lt (separation_deg_ra_wrap_le_two d) (by norm_num)

theorem correlateInnerSt_fst (tw sd : ℝ) (event1 : CanonicalEvent)
    (l : List CanonicalEvent) : (correlateInnerSt tw sd event1 l).1 = l := by
  induction l with
  | nil => simp [correlateInnerSt]
  | cons e t ih =>
    simp only [correlateInnerSt]
    split
    · simpa using ih
    · split
      · split
        · simpa using ih
        · simpa using ih
      · simpa using ih

theorem correlateInnerSt_snd (tw sd : ℝ) (event1 : CanonicalEvent)
    (l : List CanonicalEvent) :
    (correlateInnerSt tw sd event1 l).2 = correlateInner tw sd event1 l := by
  induction l with
  | nil => simp [correlateInnerSt, correlateInner]
  | cons e t ih =>
    simp only [correlateInnerSt, correlateInner]
    split
    · simpa using ih
    · split
      · split
        · simpa using ih
        · simpa using ih
      · simpa using ih

theorem correlateSt_fst (tw sd : ℝ) : ∀ l, (correlateSt tw sd l).1 = l := by
  intro l
  induction l with
  | nil => simp [correlateSt]
  | cons e t ih =>
    rw [correlateSt]
    simp only [correlateInnerSt_fst, List.cons]
    simp [ih]

theorem correlateSt_snd (tw sd : ℝ) :
    ∀ l, (correlateSt tw sd l).2 = correlate_with tw sd l := by
  intro l
  induction l with
  | nil => simp [correlateSt, correlate_with]
  | cons e t ih =>
    rw [correlateSt]
    simp only [correlateInnerSt_fst, correlateInnerSt_snd, correlate_with]
    simp [ih]

/-- C9 (frame property): the instrumented run of the correlation scan, which
threads the traversed event sequence through every loop step, returns the
input sequence unchanged — same length, order and records — alongside
exactly the pairs `correlate_events` reports; the scan only reads its input. -/
theorem correlate_frame (evs : List CanonicalEvent) :
    (correlateSt TIME_WINDOW_SECONDS SEPARATION_THRESHOLD_DEG evs).1 = evs ∧
      (correlateSt TIME_WINDOW_SECONDS SEPARATION_THRESHOLD_DEG evs).2 =
        correlate_events evs :=
  ⟨correlateSt_fst _ _ evs, correlateSt_snd _ _ evs⟩

/-- C10 (standardization preserves identity, source, length, order): on a
batch of well-formed raw events, `standardize_data` succeeds and returns one
canonical event per raw event, in order, with the `id` and `source` fields
copied unchanged. -/
theorem standardize_preserves_id_source (raws : List RawEvent)
    (h : ∀ e ∈ raws, -90 ≤ e.dec ∧ e.dec ≤ 90) :
    ∃ out, standardize_data raws = Except.ok out ∧
      out.length = raws.length ∧
      out.map CanonicalEvent.id = raws.map RawEvent.id ∧
      out.map CanonicalEvent.source = raws.map RawEvent.source := by
  induction raws with
  | nil => exact ⟨[], rfl, rfl, rfl, rfl⟩
  | cons e t ih =>
    obtain ⟨out, hout, hlen, hid, hsrc⟩ := ih (fun x hx => h x (List.mem_cons_of_mem _ hx))
    have hd := h e (List.mem_cons_self _ _)
    have hcond : ¬ (e.dec < -90 ∨ 90 < e.dec) := by
      rintro (hc | hc)
      · linarith [hd.1]
      · linarith [hd.2]
    refine ⟨⟨e.id, e.source, (e.time : ℝ), ((raWrap e.ra : ℚ) : ℝ), (e.dec : ℝ)⟩ :: out,
      ?_, ?_, ?_, ?_⟩
    · simp only [standardize_data]
      rw [if_neg hcond, hout]
    · simp [hlen]
    · simp [hid]
    · simp [hsrc]

/-- Witness for C10 at the concrete well-formed batch `[rawGood, rawGood2]`. -/
theorem standardize_preserves_id_source_witness :
    (∀ e ∈ [rawGood, rawGood2], -90 ≤ e.dec ∧ e.dec ≤ 90) ∧
      ∃ out, standardize_data [rawGood, rawGood2] = Except.ok out ∧
        out.length = ([rawGood, rawGood2] : List RawEvent).length ∧
        out.map CanonicalEvent.id = [rawGood, rawGood2].map RawEvent.id ∧
        out.map CanonicalEvent.source = [rawGood, rawGood2].map RawEvent.source :=
  ⟨by decide, standardize_preserves_id_source [rawGood, rawGood2] (by decide)⟩
